import Mathlib

/-!
Verification of the normalized-store / read / normalize / subscribe /
fetch-dedup engine of the isograph repository, as described by its
specification.  The core engine modules are modelled from the spec; the
`refetch_pet_stats` mutation reader artifact is embedded directly from
`src/demos/pet-demo/src/components/__isograph/PetStats/refetch_pet_stats/reader.ts`.
-/

namespace Isograph

/-- Modelled from the spec (§3 Data Model; the core store module is not in
src/): a stable composite key (type name + server-assigned id) identifying
one normalized entity. -/
structure EntityIdentity where
  typeName : String
  id : String
deriving DecidableEq, Repr

/-- Modelled from the spec (§3 Data Model): a field value stored in a
Record is a scalar, a collection of scalars, a reference to another
Entity Identity, or a collection of references.  Absence is modelled by
absence from the Record's association list. -/
inductive FieldValue where
  | scalar (s : String)
  | scalarList (l : List String)
  | ref (e : EntityIdentity)
  | refList (l : List EntityIdentity)
deriving DecidableEq, Repr

/-- Modelled from the spec (§3): a Record maps field-selection keys
(canonical serialization of field name + arguments) to field values. -/
abbrev Record := List (String × FieldValue)

/-- Modelled from the spec (§3): the Store maps Entity Identities to
Records. -/
abbrev Store := List (EntityIdentity × Record)

/-- A batch of writes handed to the Record Store: entries of
(identity, field key, value). -/
abbrev Batch := List (EntityIdentity × String × FieldValue)

/-- Look up a field key in a Record (first match wins). -/
def lookupRecordField (r : Record) (k : String) : Option FieldValue :=
  match r with
  | [] => none
  | (k', v) :: rest => if k' = k then some v else lookupRecordField rest k

/-- Modelled from the spec (§4.1 Record Store `get`): look up a field of
an entity's Record; `none` is "missing". -/
def lookupField (s : Store) (e : EntityIdentity) (k : String) : Option FieldValue :=
  match s with
  | [] => none
  | (e', r) :: rest => if e' = e then lookupRecordField r k else lookupField rest e k

/-- Set one field of a Record, replacing in place if present (merge is
field-by-field). -/
def setField (r : Record) (k : String) (v : FieldValue) : Record :=
  match r with
  | [] => [(k, v)]
  | (k', v') :: rest =>
    if k' = k then (k, v) :: rest else (k', v') :: setField rest k v

/-- Modelled from the spec (§4.1 Record Store `write`): merge one field
value into the entity's Record, creating the Record if absent; unrelated
fields are untouched. -/
def write (s : Store) (e : EntityIdentity) (k : String) (v : FieldValue) : Store :=
  match s with
  | [] => [(e, [(k, v)])]
  | (e', r) :: rest =>
    if e' = e then (e, setField r k v) :: rest else (e', r) :: write rest e k v

/-- Modelled from the spec (§4.1 Record Store `batchWrite`): apply a batch
of field writes in order. -/
def batchWrite (s : Store) (b : Batch) : Store :=
  match b with
  | [] => s
  | (e, k, v) :: rest => batchWrite (write s e k v) rest

/-- Deduplicate a list of entity identities (keeping one occurrence of
each). -/
def dedupIds : List EntityIdentity → List EntityIdentity
  | [] => []
  | e :: rest => if e ∈ rest then dedupIds rest else e :: dedupIds rest

/-- The set (as a deduplicated list) of entity identities touched by a
batch, reported downstream for subscriber notification. -/
def touchedOf (b : Batch) : List EntityIdentity :=
  dedupIds (b.map (fun x => x.1))

/-- The last value a batch assigns to a given (identity, field key)
location, if any. -/
def lastWrite (b : Batch) (e : EntityIdentity) (k : String) : Option FieldValue :=
  match b with
  | [] => none
  | x :: rest =>
    match lastWrite rest e k with
    | some v => some v
    | none => if x.1 = e ∧ x.2.1 = k then some x.2.2 else none

/-- Two Stores have equal Record contents when every field lookup agrees. -/
def StoreEquiv (s₁ s₂ : Store) : Prop :=
  ∀ e k, lookupField s₁ e k = lookupField s₂ e k

/-- Modelled from the spec (§3, §6): an argument value in a plan node is a
literal or a reference to a variable by name. -/
inductive ArgValue where
  | literal (s : String)
  | varRef (n : String)
deriving DecidableEq, Repr

/-- A variable mapping, from variable name to value. -/
abbrev Variables := List (String × String)

/-- Look up a variable by name (first match wins). -/
def lookupVar (vars : Variables) (n : String) : Option String :=
  match vars with
  | [] => none
  | (n', v) :: rest => if n' = n then some v else lookupVar rest n

/-- Resolve one argument against the variable mapping; an unbound
variable yields `none`. -/
def resolveArg (vars : Variables) : ArgValue → Option String
  | .literal s => some s
  | .varRef n => lookupVar vars n

/-- Resolve a whole argument list; `none` as soon as any variable is
unbound. -/
def resolveArgs (vars : Variables) :
    List (String × ArgValue) → Option (List (String × String))
  | [] => some []
  | (n, a) :: rest =>
    match resolveArg vars a, resolveArgs vars rest with
    | some v, some r => some ((n, v) :: r)
    | _, _ => none

/-- Insert an argument into a name-sorted list. -/
def insertByName (p : String × String) :
    List (String × String) → List (String × String)
  | [] => [p]
  | q :: rest => if p.1 < q.1 then p :: q :: rest else q :: insertByName p rest

/-- Sort resolved arguments by name, so the serialized key is
order-independent. -/
def sortByName : List (String × String) → List (String × String)
  | [] => []
  | p :: rest => insertByName p (sortByName rest)

/-- Modelled from the spec (§9 design notes): the canonical,
order-independent serialization of (field name, resolved arguments) used
as the field-selection key by both Reader and Normalizer. -/
def serializeKey (f : String) (resolved : List (String × String)) : String :=
  match resolved with
  | [] => f
  | _ =>
    f ++ "(" ++
      String.intercalate "," ((sortByName resolved).map (fun p => p.1 ++ ":" ++ p.2))
      ++ ")"

/-- Modelled from the spec (§7): Reader-side error kinds.  MissingData is
recoverable; UnboundVariable is a fatal plan-authoring error. -/
inductive ReadError where
  | missingData
  | unboundVariable
deriving DecidableEq, Repr

/-- Compute the field-selection key for a node, failing with
UnboundVariable when an argument references an unbound variable. -/
def keyFor (f : String) (args : List (String × ArgValue)) (vars : Variables) :
    Except ReadError String :=
  match resolveArgs vars args with
  | none => .error .unboundVariable
  | some r => .ok (serializeKey f r)

/-- Modelled from the spec (§3 Selection Plan / ReaderAst): selection
nodes are Scalar, Linked (with a nested plan) or Resolver (a masked
sub-view with its own nested plan); each carries field name, alias and
arguments. -/
inductive ReaderNode where
  | scalar (fieldName : String) (aliasName : Option String) (args : List (String × ArgValue))
  | linked (fieldName : String) (aliasName : Option String) (args : List (String × ArgValue)) (selections : List ReaderNode)
  | resolver (aliasName : String) (selections : List ReaderNode)
deriving Repr

/-- The masked value tree a read produces.  A Resolver contributes only a
thunk wrapping its inner masked data. -/
inductive Value where
  | scalar (s : String)
  | scalarList (l : List String)
  | refVal (e : EntityIdentity)
  | refValList (l : List EntityIdentity)
  | obj (fields : List (String × Value))
  | list (items : List Value)
  | thunk (inner : Value)
deriving Repr

/-- Inject a stored field value into the produced value tree. -/
def valueOfField : FieldValue → Value
  | .scalar s => .scalar s
  | .scalarList l => .scalarList l
  | .ref e => .refVal e
  | .refList l => .refValList l

mutual

/-- Modelled from the spec (§4.3 Reader, per-node semantics; the core
read module is not in src/): Scalar looks the field up and reports
Missing when absent; Linked resolves to one or many child identities and
recurses, adding each child to the encountered set; Resolver reads its
nested plan and packages the inner masked data as a thunk. -/
def readNode (store : Store) (vars : Variables) (cur : EntityIdentity) :
    ReaderNode → Except ReadError ((String × Value) × List EntityIdentity)
  | .scalar f a args => do
    let key ← keyFor f args vars
    match lookupField store cur key with
    | none => .error .missingData
    | some fv => .ok ((a.getD f, valueOfField fv), [])
  | .linked f a args sels => do
    let key ← keyFor f args vars
    match lookupField store cur key with
    | some (.ref child) => do
      let res ← readList store vars child sels
      .ok ((a.getD f, .obj res.1), child :: res.2)
    | some (.refList children) => do
      let res ← readPlural store vars children sels
      .ok ((a.getD f, .list res.1), res.2)
    | _ => .error .missingData
  | .resolver a sels => do
    let res ← readList store vars cur sels
    .ok ((a, .thunk (.obj res.1)), res.2)
termination_by n => (sizeOf n, 0)

/-- Read a nested plan at each element of a linked collection, preserving
order and unioning encountered sets. -/
def readPlural (store : Store) (vars : Variables) :
    List EntityIdentity → List ReaderNode →
      Except ReadError (List Value × List EntityIdentity)
  | [], _ => .ok ([], [])
  | e :: es, sels => do
    let res ← readList store vars e sels
    let rest ← readPlural store vars es sels
    .ok (.obj res.1 :: rest.1, (e :: res.2) ++ rest.2)
termination_by es sels => (sizeOf sels, sizeOf es + 1)

/-- Read each node of a plan in order against the current identity,
collecting the produced fields and encountered identities. -/
def readList (store : Store) (vars : Variables) (cur : EntityIdentity) :
    List ReaderNode → Except ReadError (List (String × Value) × List EntityIdentity)
  | [] => .ok ([], [])
  | n :: rest => do
    let fld ← readNode store vars cur n
    let flds ← readList store vars cur rest
    .ok (fld.1 :: flds.1, fld.2 ++ flds.2)
termination_by l => (sizeOf l, 0)

end

/-- Modelled from the spec (§4.3): `read(plan, rootIdentity, vars)`
against a Store produces a masked value tree plus the encountered-record
set (the root is always encountered), or reports Missing /
UnboundVariable. -/
def read (plan : List ReaderNode) (store : Store) (root : EntityIdentity)
    (vars : Variables) : Except ReadError (Value × List EntityIdentity) := do
  let res ← readList store vars root plan
  .ok (.obj res.1, root :: res.2)

/-- Calling `read` twice in sequence against the same (unmodified) Store:
the pair of results. -/
def readTwice (plan : List ReaderNode) (store : Store) (root : EntityIdentity)
    (vars : Variables) :
    Except ReadError (Value × List EntityIdentity) ×
      Except ReadError (Value × List EntityIdentity) :=
  let r₁ := read plan store root vars
  let r₂ := read plan store root vars
  (r₁, r₂)

mutual

/-- A plan node is well formed for a variable mapping when every argument
it (or any nested node) carries resolves — i.e. no UnboundVariable
plan-authoring error (spec §7). -/
def nodeWF (vars : Variables) : ReaderNode → Bool
  | .scalar _ _ args => (resolveArgs vars args).isSome
  | .linked _ _ args sels => (resolveArgs vars args).isSome && listWF vars sels
  | .resolver _ sels => listWF vars sels
termination_by n => sizeOf n

/-- All nodes of a plan are well formed for the variable mapping. -/
def listWF (vars : Variables) : List ReaderNode → Bool
  | [] => true
  | n :: rest => nodeWF vars n && listWF vars rest
termination_by l => sizeOf l

end

mutual

/-- Does the Reader's traversal of this node, at the given current
identity, reach a Scalar node whose field lookup in the Record at the
then-current identity finds the field absent?  Linked nodes follow the
stored child reference(s) into the nested plan at the child identity;
Resolver nodes recurse at the same identity.  This mirrors the spec §4.3
traversal notion of "current identity". -/
def nodeHasAbsentScalar (store : Store) (vars : Variables)
    (cur : EntityIdentity) : ReaderNode → Bool
  | .scalar f _ args =>
    match resolveArgs vars args with
    | none => false
    | some r => (lookupField store cur (serializeKey f r)).isNone
  | .linked f _ args sels =>
    match resolveArgs vars args with
    | none => false
    | some r =>
      match lookupField store cur (serializeKey f r) with
      | some (.ref child) => listHasAbsentScalar store vars child sels
      | some (.refList children) => pluralHasAbsentScalar store vars children sels
      | _ => false
  | .resolver _ sels => listHasAbsentScalar store vars cur sels
termination_by n => (sizeOf n, 0)

/-- Absent-scalar reachability across the elements of a linked
collection. -/
def pluralHasAbsentScalar (store : Store) (vars : Variables) :
    List EntityIdentity → List ReaderNode → Bool
  | [], _ => false
  | e :: es, sels =>
    listHasAbsentScalar store vars e sels ||
      pluralHasAbsentScalar store vars es sels
termination_by es sels => (sizeOf sels, sizeOf es + 1)

/-- Absent-scalar reachability across the nodes of a plan at the current
identity. -/
def listHasAbsentScalar (store : Store) (vars : Variables)
    (cur : EntityIdentity) : List ReaderNode → Bool
  | [] => false
  | n :: rest =>
    nodeHasAbsentScalar store vars cur n ||
      listHasAbsentScalar store vars cur rest
termination_by l => (sizeOf l, 0)

end

/-- Modelled from the spec (§3, §6): a raw response payload is a tree of
scalars, objects and lists. -/
inductive Payload where
  | scalar (s : String)
  | obj (fields : List (String × Payload))
  | list (items : List Payload)
deriving Repr

/-- Look up a field of a payload object (first match wins). -/
def lookupPayloadField (fields : List (String × Payload)) (f : String) :
    Option Payload :=
  match fields with
  | [] => none
  | (f', p) :: rest => if f' = f then some p else lookupPayloadField rest f

/-- Modelled from the spec (§7): Normalizer-side error kinds; an
unresolvable identity derivation is fatal. -/
inductive NormError where
  | identityDerivationFailure
  | unboundVariable
deriving DecidableEq, Repr

/-- Field-selection key computation on the Normalizer side; reuses the
same canonical serialization as the Reader (spec §9). -/
def keyForN (f : String) (args : List (String × ArgValue)) (vars : Variables) :
    Except NormError String :=
  match resolveArgs vars args with
  | none => .error .unboundVariable
  | some r => .ok (serializeKey f r)

/-- Extract the scalars from a payload list, when homogeneous. -/
def scalarsOf : List Payload → Option (List String)
  | [] => some []
  | .scalar s :: rest => (scalarsOf rest).map (fun l => s :: l)
  | _ => none

/-- Convert a scalar-shaped payload into a stored field value. -/
def payloadFieldValue : Payload → Option FieldValue
  | .scalar s => some (.scalar s)
  | .list items => (scalarsOf items).map (fun l => .scalarList l)
  | .obj _ => none

/-- Modelled from the spec (§4.2): derive a child Entity Identity from a
linked payload object, from its type name and id field; `none` when the
derivation is unresolvable. -/
def deriveIdentity : Payload → Option EntityIdentity
  | .obj fields =>
    match lookupPayloadField fields "__typename", lookupPayloadField fields "id" with
    | some (.scalar t), some (.scalar i) => some ⟨t, i⟩
    | _, _ => none
  | _ => none

/-- Modelled from the spec (§3 Normalization Plan): mirrors the Selection
Plan's shape; Scalar writes the payload field, Linked derives the child
identity and recurses. -/
inductive NormalizationNode where
  | scalar (fieldName : String) (args : List (String × ArgValue))
  | linked (fieldName : String) (args : List (String × ArgValue)) (selections : List NormalizationNode)
deriving Repr

mutual

/-- Modelled from the spec (§4.2 Normalizer; the core normalize module is
not in src/): walk plan and payload in lock-step, producing the batch of
Record Store writes.  Scalar nodes write the payload field directly;
Linked nodes derive the child identity (fatal error when unresolvable),
write a reference into the parent Record and recurse. -/
def normalizeNode (vars : Variables) (cur : EntityIdentity)
    (pfields : List (String × Payload)) :
    NormalizationNode → Except NormError Batch
  | .scalar f args => do
    let key ← keyForN f args vars
    match lookupPayloadField pfields f with
    | none => .ok []
    | some p =>
      match payloadFieldValue p with
      | none => .ok []
      | some fv => .ok [(cur, key, fv)]
  | .linked f args sels => do
    let key ← keyForN f args vars
    match lookupPayloadField pfields f with
    | none => .ok []
    | some (.obj cf) =>
      match deriveIdentity (.obj cf) with
      | none => .error .identityDerivationFailure
      | some cid => do
        let inner ← normalizeList vars cid cf sels
        .ok ((cur, key, .ref cid) :: inner)
    | some (.list items) => do
      let res ← normalizePlural vars items sels
      .ok ((cur, key, .refList res.1) :: res.2)
    | some (.scalar _) => .ok []
termination_by n => (sizeOf n, 0)

/-- Normalize each element of a linked collection payload, deriving each
element's identity and recursing. -/
def normalizePlural (vars : Variables) :
    List Payload → List NormalizationNode →
      Except NormError (List EntityIdentity × Batch)
  | [], _ => .ok ([], [])
  | .obj cf :: ps, sels =>
    match deriveIdentity (.obj cf) with
    | none => .error .identityDerivationFailure
    | some cid => do
      let inner ← normalizeList vars cid cf sels
      let rest ← normalizePlural vars ps sels
      .ok (cid :: rest.1, inner ++ rest.2)
  | _ :: _, _ => .error .identityDerivationFailure
termination_by ps sels => (sizeOf sels, sizeOf ps + 1)

/-- Normalize each node of a plan against the current identity and
payload object, concatenating the produced batches. -/
def normalizeList (vars : Variables) (cur : EntityIdentity)
    (pfields : List (String × Payload)) :
    List NormalizationNode → Except NormError Batch
  | [] => .ok []
  | n :: rest => do
    let b ← normalizeNode vars cur pfields n
    let bs ← normalizeList vars cur pfields rest
    .ok (b ++ bs)
termination_by l => (sizeOf l, 0)

end

/-- Modelled from the spec (§4.2): `normalize(plan, payload, vars)` writes
a server response into the Record Store as one batch and produces the set
of touched entity identities. -/
def normalize (store : Store) (plan : List NormalizationNode)
    (pfields : List (String × Payload)) (vars : Variables)
    (root : EntityIdentity) :
    Except NormError (Store × List EntityIdentity) := do
  let batch ← normalizeList vars root pfields plan
  .ok (batchWrite store batch, touchedOf batch)

/-- Modelled from the spec (§3 Subscription, §4.5): an active subscription
records its stable id, the encountered-record set of its last read, and —
to model what its callback does when invoked — the set of subscription
ids the callback unsubscribes. -/
structure SubEntry where
  sid : Nat
  encountered : List EntityIdentity
  effects : List Nat
deriving DecidableEq, Repr

/-- The Subscription Manager's state: the list of active subscriptions in
registration order. -/
abbrev SubState := List SubEntry

/-- Modelled from the spec (§4.5): `unsubscribe` removes a subscription
from the active set. -/
def unsubscribe (sid : Nat) (st : SubState) : SubState :=
  st.filter (fun s => s.sid != sid)

/-- Whether a subscription id is currently active. -/
def isActive (st : SubState) (sid : Nat) : Bool :=
  st.any (fun s => s.sid == sid)

/-- Apply a callback's unsubscriptions to the active set. -/
def applyEffects (effs : List Nat) (st : SubState) : SubState :=
  effs.foldl (fun acc i => unsubscribe i acc) st

/-- Do two encountered / touched identity sets intersect? -/
def intersects (a b : List EntityIdentity) : Bool :=
  a.any (fun x => b.any (fun y => decide (x = y)))

/-- Modelled from the spec (§4.5): the notification list for one batch —
every active subscription whose encountered set intersects the touched
set, once each, in registration order. -/
def notifyOrder (subs : List SubEntry) (touched : List EntityIdentity) :
    List Nat :=
  (subs.filter (fun s => intersects s.encountered touched)).map (fun s => s.sid)

/-- Modelled from the spec (§4.1, §4.5): a Record Store batch write lands
the whole batch, then yields the subscriber notifications. -/
def processBatch (store : Store) (subs : List SubEntry) (b : Batch) :
    Store × List Nat :=
  (batchWrite store b, notifyOrder subs (touchedOf b))

/-- Modelled from the spec (§4.5): deliver one notification pass over a
snapshot of subscriptions taken at the start of delivery; each callback
runs only if its subscription is still active when reached, and its
unsubscriptions take effect immediately.  Produces the invoked ids in
order and the final active set. -/
def runCallbacks : List SubEntry → SubState → List Nat × SubState
  | [], st => ([], st)
  | s :: rest, st =>
    if isActive st s.sid then
      let st' := applyEffects s.effects st
      let res := runCallbacks rest st'
      (s.sid :: res.1, res.2)
    else runCallbacks rest st

/-- A network transport outcome: a resolved payload or an error. -/
inductive Outcome where
  | success (payload : List (String × Payload))
  | failure (e : String)
deriving Repr

/-- Modelled from the spec (§4.4 Network Request Cache): in-flight entries
keyed by fingerprint with their attached callers, plus the sequence of
underlying transport calls actually issued. -/
structure NetState where
  pendingFetches : List (String × List Nat)
  transportCalls : List String
deriving Repr

/-- The empty Network Request Cache. -/
def emptyNet : NetState := ⟨[], []⟩

/-- Look up an in-flight entry by fingerprint. -/
def lookupPending (l : List (String × List Nat)) (fp : String) :
    Option (List Nat) :=
  match l with
  | [] => none
  | (fp', ws) :: rest => if fp' = fp then some ws else lookupPending rest fp

/-- Attach one more caller to an in-flight entry. -/
def addWaiter (l : List (String × List Nat)) (fp : String) (c : Nat) :
    List (String × List Nat) :=
  match l with
  | [] => []
  | (fp', ws) :: rest =>
    if fp' = fp then (fp', ws ++ [c]) :: rest else (fp', ws) :: addWaiter rest fp c

/-- Drop an entry once its fetch has settled. -/
def removePending (l : List (String × List Nat)) (fp : String) :
    List (String × List Nat) :=
  match l with
  | [] => []
  | (fp', ws) :: rest =>
    if fp' = fp then rest else (fp', ws) :: removePending rest fp

/-- Modelled from the spec (§4.4): `fetch` attaches the caller to an
existing in-flight operation for the same fingerprint, or issues exactly
one new underlying transport call. -/
def fetch (caller : Nat) (fp : String) (st : NetState) : NetState :=
  match lookupPending st.pendingFetches fp with
  | some _ => { st with pendingFetches := addWaiter st.pendingFetches fp caller }
  | none =>
    { st with
        pendingFetches := st.pendingFetches ++ [(fp, [caller])]
        transportCalls := st.transportCalls ++ [fp] }

/-- Modelled from the spec (§4.4, §5): when the underlying operation for a
fingerprint settles, every attached caller observes the same outcome. -/
def resolveFetch (fp : String) (o : Outcome) (st : NetState) :
    List (Nat × Outcome) × NetState :=
  match lookupPending st.pendingFetches fp with
  | none => ([], st)
  | some ws =>
    (ws.map (fun c => (c, o)),
      { st with pendingFetches := removePending st.pendingFetches fp })

/-- The entity `User:1` of the spec's §8 scenarios. -/
def userOne : EntityIdentity := ⟨"User", "1"⟩

/-- The distinguished Query root identity. -/
def queryRoot : EntityIdentity := ⟨"Query", "ROOT"⟩

/-- A selection plan selecting the single scalar field `name`. -/
def namePlan : List ReaderNode := [.scalar "name" none []]

/-- A normalization plan decomposing a `{user: {name}}` response. -/
def userNamePlanN : List NormalizationNode :=
  [.linked "user" [] [.scalar "name" []]]

/-- The server payload establishing `User:1` with name "Ada". -/
def adaPayload : List (String × Payload) :=
  [("user",
    .obj [("__typename", .scalar "User"), ("id", .scalar "1"),
      ("name", .scalar "Ada")])]

/-- The store contents after normalizing the Ada payload into the empty
store. -/
def adaStore : Store :=
  [(queryRoot, [("user", .ref userOne)]),
   (userOne, [("name", .scalar "Ada")])]

end Isograph

namespace Isograph.PetStatsRefetch

/-- A network request issued by `makeNetworkRequest`, embedded from
src/demos/pet-demo/src/components/__isograph/PetStats/refetch_pet_stats/reader.ts:
the environment, the refetch-query artifact, and the variables sent. -/
structure NetworkCall where
  environment : String
  artifact : String
  vars : Variables
deriving DecidableEq, Repr

/-- Embedded from refetch_pet_stats/reader.ts lines 3-5:
`const includeReadOutData = (variables, readOutData) => variables`. -/
def includeReadOutData {α : Type} {β : Type} (vs : α) (readOutData : β) : α :=
  vs

/-- JavaScript object-spread merge, as in the source's
`{...filteredVariables, ...mutationParams}`: keys of the first argument in
order (with the second argument's value when it overrides), then the
second argument's remaining keys; the second argument takes precedence. -/
def spread (a b : Variables) : Variables :=
  a.map (fun p =>
      match lookupVar b p.1 with
      | some v => (p.1, v)
      | none => p)
    ++ b.filter (fun q => (lookupVar a q.1).isNone)

/-- `makeNetworkRequest(environment, artifact, variables)` issues one
request with exactly those variables. -/
def makeNetworkRequest (environment : String) (artifact : String)
    (vs : Variables) : NetworkCall :=
  ⟨environment, artifact, vs⟩

/-- Embedded from refetch_pet_stats/reader.ts lines 8-16: applying the
resolver to (environment, artifact, readOutData, filteredVariables)
returns a thunk; invoking the thunk with mutationParams produces the list
of network requests it makes — exactly one `makeNetworkRequest` whose
variables are `includeReadOutData({...filteredVariables, ...mutationParams},
readOutData)`. -/
def resolver {γ : Type} (environment : String) (artifact : String)
    (readOutData : γ) (filteredVariables : Variables) :
    Variables → List NetworkCall :=
  fun mutationParams =>
    let vs := includeReadOutData (spread filteredVariables mutationParams) readOutData
    [makeNetworkRequest environment artifact vs]

end Isograph.PetStatsRefetch

namespace Isograph

theorem lookupRecordField_setField (r : Record) (k k' : String) (v : FieldValue) :
    lookupRecordField (setField r k v) k' =
      if k = k' then some v else lookupRecordField r k' := by
  induction r with
  | nil =>
    simp [setField, lookupRecordField]
  | cons hd tl ih =>
    obtain ⟨k₀, v₀⟩ := hd
    by_cases h₀ : k₀ = k
    · subst h₀
      by_cases h₁ : k₀ = k' <;> simp [setField, lookupRecordField, h₁]
    · by_cases h₁ : k₀ = k'
      · subst h₁
        have hkk : ¬k = k₀ := fun h => h₀ h.symm
        simp [setField, lookupRecordField, h₀, hkk]
      · simp [setField, lookupRecordField, h₀, h₁, ih]

theorem lookupField_write (s : Store) (e e' : EntityIdentity) (k k' : String)
    (v : FieldValue) :
    lookupField (write s e k v) e' k' =
      if e = e' ∧ k = k' then some v else lookupField s e' k' := by
  induction s with
  | nil =>
    by_cases he : e = e'
    · subst he
      by_cases hk : k = k' <;> simp [write, lookupField, lookupRecordField, hk]
    · simp [write, lookupField, he]
  | cons hd tl ih =>
    obtain ⟨e₀, r₀⟩ := hd
    by_cases h₀ : e₀ = e
    · subst h₀
      by_cases he : e₀ = e'
      · subst he
        by_cases hk : k = k' <;>
          simp [write, lookupField, lookupRecordField_setField, hk]
      · have hne : ¬(e₀ = e' ∧ k = k') := fun h => he h.1
        simp [write, lookupField, he, hne]
    · by_cases he : e₀ = e'
      · subst he
        have hne : ¬(e = e₀ ∧ k = k') := fun h => h₀ h.1.symm
        simp [write, lookupField, h₀, hne]
      · simp [write, lookupField, h₀, he, ih]

theorem lookupField_batchWrite (b : Batch) (s : Store) (e : EntityIdentity)
    (k : String) :
    lookupField (batchWrite s b) e k =
      match lastWrite b e k with
      | some v => some v
      | none => lookupField s e k := by
  induction b generalizing s with
  | nil => simp [batchWrite, lastWrite]
  | cons hd tl ih =>
    obtain ⟨e₀, k₀, v₀⟩ := hd
    simp only [batchWrite, lastWrite, ih, lookupField_write]
    cases h : lastWrite tl e k with
    | some v => simp
    | none =>
      simp only []
      by_cases hm : e₀ = e ∧ k₀ = k
      · simp [hm]
      · simp [hm]

/-- Replaying a batch on top of itself changes no field contents. -/
theorem batchWrite_replay (s : Store) (b : Batch) :
    StoreEquiv (batchWrite (batchWrite s b) b) (batchWrite s b) := by
  intro e k
  rw [lookupField_batchWrite, lookupField_batchWrite]
  cases h : lastWrite b e k with
  | some v => simp
  | none => simp [lookupField_batchWrite, h]

/-- C1: for every selection plan, root entity identity, variable mapping
and store state, calling `read` twice without any intervening store
mutation produces structurally equal results — `read` is a deterministic,
pure function of (plan, store snapshot, root identity, variables). -/
theorem read_deterministic (plan : List ReaderNode) (store : Store)
    (root : EntityIdentity) (vars : Variables) :
    (readTwice plan store root vars).1 = (readTwice plan store root vars).2 :=
  rfl

/-- C2: on the empty Store, reading the plan selecting `name` rooted at
`User:1` reports Missing; after `normalize` writes the payload
establishing `User:1` with name "Ada", the same read returns the value
`{name: "Ada"}` with encountered-record set exactly `{User:1}`. -/
theorem missing_before_present_after :
    read namePlan [] userOne [] = .error .missingData ∧
    normalize [] userNamePlanN adaPayload [] queryRoot =
      .ok (adaStore, [queryRoot, userOne]) ∧
    read namePlan adaStore userOne [] =
      .ok (.obj [("name", .scalar "Ada")], [userOne]) := by
  refine ⟨?_, ?_, ?_⟩ <;>
    simp +decide [read, readList, readNode, normalize, normalizeList,
      normalizeNode, keyFor, keyForN, resolveArgs, serializeKey, lookupField,
      lookupRecordField, valueOfField, lookupPayloadField, payloadFieldValue,
      deriveIdentity, batchWrite, write, setField, touchedOf, dedupIds,
      namePlan, userNamePlanN, adaPayload, adaStore, userOne, queryRoot,
      bind, Except.bind]

/-- C3: normalize is idempotent — normalizing the same payload against the
same plan (and variables, root) a second time touches the same identity
set and leaves the Store's Record contents equal to the contents after
normalizing once. -/
theorem normalize_idempotent (store : Store) (plan : List NormalizationNode)
    (pfields : List (String × Payload)) (vars : Variables)
    (root : EntityIdentity) (s₁ s₂ : Store) (t₁ t₂ : List EntityIdentity)
    (h₁ : normalize store plan pfields vars root = .ok (s₁, t₁))
    (h₂ : normalize s₁ plan pfields vars root = .ok (s₂, t₂)) :
    t₂ = t₁ ∧ StoreEquiv s₂ s₁ := by
  unfold normalize at h₁ h₂
  cases hb : normalizeList vars root pfields plan with
  | error e =>
    rw [hb] at h₁
    exact absurd h₁ (by simp [bind, Except.bind])
  | ok batch =>
    rw [hb] at h₁ h₂
    simp only [bind, Except.bind, Except.ok.injEq, Prod.mk.injEq] at h₁ h₂
    obtain ⟨hs₁, ht₁⟩ := h₁
    obtain ⟨hs₂, ht₂⟩ := h₂
    subst hs₁ hs₂ ht₁ ht₂
    exact ⟨rfl, batchWrite_replay store batch⟩

/-- Under a well-formed plan (no unbound variables), neither a node read
nor a plan read nor a plural read can fail with UnboundVariable. -/
theorem readNode_no_unbound (store : Store) (vars : Variables) :
    ∀ (cur : EntityIdentity) (n : ReaderNode), nodeWF vars n = true →
      readNode store vars cur n ≠ .error .unboundVariable := by
  refine readNode.induct store vars
    (fun cur n => nodeWF vars n = true →
      readNode store vars cur n ≠ .error .unboundVariable)
    (fun es sels => listWF vars sels = true →
      readPlural store vars es sels ≠ .error .unboundVariable)
    (fun cur l => listWF vars l = true →
      readList store vars cur l ≠ .error .unboundVariable)
    ?_ ?_ ?_ ?_ ?_ ?_ ?_
  · intro cur f a args h
    rw [nodeWF] at h
    cases hres : resolveArgs vars args with
    | none => rw [hres] at h; simp at h
    | some r =>
      simp only [readNode, keyFor, hres, bind, Except.bind]
      cases hl : lookupField store cur (serializeKey f r) <;> simp
  · intro cur f a args sels ih3 ih2 h
    rw [nodeWF, Bool.and_eq_true] at h
    obtain ⟨hargs, hsels⟩ := h
    cases hres : resolveArgs vars args with
    | none => rw [hres] at hargs; simp at hargs
    | some r =>
      simp only [readNode, keyFor, hres, bind, Except.bind]
      cases hl : lookupField store cur (serializeKey f r) with
      | none => simp
      | some fv =>
        cases fv with
        | scalar s => simp
        | scalarList l => simp
        | ref child =>
          cases hr : readList store vars child sels with
          | error e =>
            cases e with
            | missingData => simp [hr]
            | unboundVariable => exact absurd hr (ih3 child hsels)
          | ok res => simp [hr]
        | refList children =>
          cases hr : readPlural store vars children sels with
          | error e =>
            cases e with
            | missingData => simp [hr]
            | unboundVariable => exact absurd hr (ih2 children hsels)
          | ok res => simp [hr]
  · intro cur a sels ih3 h
    rw [nodeWF] at h
    simp only [readNode, bind, Except.bind]
    cases hr : readList store vars cur sels with
    | error e =>
      cases e with
      | missingData => simp [hr]
      | unboundVariable => exact absurd hr (ih3 h)
    | ok res => simp [hr]
  · intro sels _
    simp [readPlural]
  · intro e es sels ih3 ih2 h
    simp only [readPlural, bind, Except.bind]
    cases hr : readList store vars e sels with
    | error er =>
      cases er with
      | missingData => simp [hr]
      | unboundVariable => exact absurd hr (ih3 h)
    | ok res =>
      cases hrest : readPlural store vars es sels with
      | error er =>
        cases er with
        | missingData => simp [hr, hrest]
        | unboundVariable => exact absurd hrest (ih2 h)
      | ok rest => simp [hr, hrest]
  · intro cur _
    simp [readList]
  · intro cur n rest ih1 ih3 h
    rw [listWF, Bool.and_eq_true] at h
    obtain ⟨hn, hrest⟩ := h
    simp only [readList, bind, Except.bind]
    cases hr : readNode store vars cur n with
    | error er =>
      cases er with
      | missingData => simp [hr]
      | unboundVariable => exact absurd hr (ih1 hn)
    | ok fld =>
      cases hrest' : readList store vars cur rest with
      | error er =>
        cases er with
        | missingData => simp [hr, hrest']
        | unboundVariable => exact absurd hrest' (ih3 hrest)
      | ok flds => simp [hr, hrest']

/-- Under a well-formed plan a whole-plan read cannot fail with
UnboundVariable. -/
theorem readList_no_unbound (store : Store) (vars : Variables)
    (cur : EntityIdentity) (l : List ReaderNode) (h : listWF vars l = true) :
    readList store vars cur l ≠ .error .unboundVariable := by
  induction l with
  | nil => simp [readList]
  | cons n rest ih =>
    rw [listWF, Bool.and_eq_true] at h
    obtain ⟨hn, hrest⟩ := h
    simp only [readList, bind, Except.bind]
    cases hr : readNode store vars cur n with
    | error er =>
      cases er with
      | missingData => simp [hr]
      | unboundVariable =>
        exact absurd hr (readNode_no_unbound store vars cur n hn)
    | ok fld =>
      cases hrest2 : readList store vars cur rest with
      | error er =>
        cases er with
        | missingData => simp [hr, hrest2]
        | unboundVariable => exact absurd hrest2 (ih hrest)
      | ok flds => simp [hr, hrest2]

/-- Under a well-formed nested plan a plural read cannot fail with
UnboundVariable. -/
theorem readPlural_no_unbound (store : Store) (vars : Variables)
    (es : List EntityIdentity) (sels : List ReaderNode)
    (h : listWF vars sels = true) :
    readPlural store vars es sels ≠ .error .unboundVariable := by
  induction es with
  | nil => simp [readPlural]
  | cons e es2 ih =>
    simp only [readPlural, bind, Except.bind]
    cases hr : readList store vars e sels with
    | error er =>
      cases er with
      | missingData => simp [hr]
      | unboundVariable =>
        exact absurd hr (readList_no_unbound store vars e sels h)
    | ok res =>
      cases hrest : readPlural store vars es2 sels with
      | error er =>
        cases er with
        | missingData => simp [hr, hrest]
        | unboundVariable => exact absurd hrest ih
      | ok rest => simp [hr, hrest]

/-- Under a well-formed plan, whenever the traversal reaches a Scalar node
whose field lookup at the then-current identity is absent, the node read
reports Missing (and likewise for plural and plan reads). -/
theorem readNode_absent_scalar (store : Store) (vars : Variables) :
    ∀ (cur : EntityIdentity) (n : ReaderNode), nodeWF vars n = true →
      nodeHasAbsentScalar store vars cur n = true →
      readNode store vars cur n = .error .missingData := by
  refine readNode.induct store vars
    (fun cur n => nodeWF vars n = true →
      nodeHasAbsentScalar store vars cur n = true →
      readNode store vars cur n = .error .missingData)
    (fun es sels => listWF vars sels = true →
      pluralHasAbsentScalar store vars es sels = true →
      readPlural store vars es sels = .error .missingData)
    (fun cur l => listWF vars l = true →
      listHasAbsentScalar store vars cur l = true →
      readList store vars cur l = .error .missingData)
    ?_ ?_ ?_ ?_ ?_ ?_ ?_
  · intro cur f a args hwf habs
    rw [nodeWF] at hwf
    cases hres : resolveArgs vars args with
    | none => rw [hres] at hwf; simp at hwf
    | some r =>
      simp only [nodeHasAbsentScalar, hres, Option.isNone_iff_eq_none] at habs
      simp [readNode, keyFor, hres, habs, bind, Except.bind]
  · intro cur f a args sels ih3 ih2 hwf habs
    rw [nodeWF, Bool.and_eq_true] at hwf
    obtain ⟨hargs, hsels⟩ := hwf
    cases hres : resolveArgs vars args with
    | none => rw [hres] at hargs; simp at hargs
    | some r =>
      simp only [nodeHasAbsentScalar, hres] at habs
      cases hl : lookupField store cur (serializeKey f r) with
      | none => simp [hl] at habs
      | some fv =>
        cases fv with
        | scalar s => simp [hl] at habs
        | scalarList l => simp [hl] at habs
        | ref child =>
          simp only [hl] at habs
          simp [readNode, keyFor, hres, hl, ih3 child hsels habs, bind,
            Except.bind]
        | refList children =>
          simp only [hl] at habs
          simp [readNode, keyFor, hres, hl, ih2 children hsels habs, bind,
            Except.bind]
  · intro cur a sels ih3 hwf habs
    rw [nodeWF] at hwf
    simp only [nodeHasAbsentScalar] at habs
    simp [readNode, ih3 hwf habs, bind, Except.bind]
  · intro sels _ habs
    simp [pluralHasAbsentScalar] at habs
  · intro e es sels ih3 ih2 hwf habs
    simp only [pluralHasAbsentScalar, Bool.or_eq_true] at habs
    simp only [readPlural, bind, Except.bind]
    rcases habs with hleft | hright
    · simp [ih3 hwf hleft]
    · cases hr : readList store vars e sels with
      | error er =>
        cases er with
        | missingData => simp [hr]
        | unboundVariable =>
          exact absurd hr (readList_no_unbound store vars e sels hwf)
      | ok res => simp [hr, ih2 hwf hright]
  · intro cur _ habs
    simp [listHasAbsentScalar] at habs
  · intro cur n rest ih1 ih3 hwf habs
    rw [listWF, Bool.and_eq_true] at hwf
    obtain ⟨hn, hrest⟩ := hwf
    simp only [listHasAbsentScalar, Bool.or_eq_true] at habs
    simp only [readList, bind, Except.bind]
    rcases habs with hleft | hright
    · simp [ih1 hn hleft]
    · cases hr : readNode store vars cur n with
      | error er =>
        cases er with
        | missingData => simp [hr]
        | unboundVariable =>
          exact absurd hr (readNode_no_unbound store vars cur n hn)
      | ok fld => simp [hr, ih3 hrest hright]

/-- C4: a read is all-or-nothing per plan — for every well-formed plan,
store, root identity and variables, if the Reader's traversal reaches any
Scalar node (at top level or nested under Linked or Resolver nodes) whose
field lookup in the Record at the then-current identity finds the field
absent, the entire read reports Missing; no partial value tree is ever
returned. -/
theorem read_all_or_nothing (plan : List ReaderNode) (store : Store)
    (root : EntityIdentity) (vars : Variables)
    (hwf : listWF vars plan = true)
    (habs : listHasAbsentScalar store vars root plan = true) :
    read plan store root vars = .error .missingData := by
  suffices hsuff : ∀ l : List ReaderNode, listWF vars l = true →
      listHasAbsentScalar store vars root l = true →
      readList store vars root l = .error .missingData by
    simp [read, hsuff plan hwf habs, bind, Except.bind]
  intro l
  induction l with
  | nil =>
    intro _ habs2
    simp [listHasAbsentScalar] at habs2
  | cons n rest ih =>
    intro hwf2 habs2
    rw [listWF, Bool.and_eq_true] at hwf2
    obtain ⟨hn, hrest⟩ := hwf2
    simp only [listHasAbsentScalar, Bool.or_eq_true] at habs2
    simp only [readList, bind, Except.bind]
    rcases habs2 with hleft | hright
    · simp [readNode_absent_scalar store vars root n hn hleft]
    · cases hr : readNode store vars root n with
      | error er =>
        cases er with
        | missingData => simp [hr]
        | unboundVariable =>
          exact absurd hr (readNode_no_unbound store vars root n hn)
      | ok fld => simp [hr, ih hrest hright]

/-- Witness for C4: the Scalar `name` nested under the Linked node `user`
is absent on the child record `User:1`, and the entire read from the
Query root reports Missing. -/
theorem read_all_or_nothing_witness :
    read [.linked "user" none [] [.scalar "name" none []]]
        [(queryRoot, [("user", .ref userOne)]), (userOne, [])]
        queryRoot [] = .error .missingData :=
  read_all_or_nothing [.linked "user" none [] [.scalar "name" none []]]
    [(queryRoot, [("user", .ref userOne)]), (userOne, [])] queryRoot []
    (by simp [listWF, nodeWF, resolveArgs])
    (by
      simp +decide [listHasAbsentScalar, nodeHasAbsentScalar, resolveArgs,
        serializeKey, lookupField, lookupRecordField, queryRoot, userOne])

theorem lastWrite_none_of (b : Batch) (e : EntityIdentity) (k : String)
    (h : ∀ x ∈ b, ¬(x.1 = e ∧ x.2.1 = k)) : lastWrite b e k = none := by
  induction b with
  | nil => rfl
  | cons x rest ih =>
    have hx := h x (List.mem_cons_self x rest)
    have hrest := ih (fun y hy => h y (List.mem_cons_of_mem x hy))
    simp [lastWrite, hrest, hx]

/-- C6: store writes are merge-only at field granularity — a single write
and a batch write both leave every (identity, field key) location they do
not name with exactly the value it had before. -/
theorem merge_only_frame (s : Store) (b : Batch) (e' e : EntityIdentity)
    (k' k : String) (v : FieldValue) (hw : ¬(e' = e ∧ k' = k))
    (hb : ∀ x ∈ b, ¬(x.1 = e ∧ x.2.1 = k)) :
    lookupField (write s e' k' v) e k = lookupField s e k ∧
      lookupField (batchWrite s b) e k = lookupField s e k := by
  constructor
  · rw [lookupField_write, if_neg hw]
  · rw [lookupField_batchWrite, lastWrite_none_of b e k hb]

/-- Witness for C6: writing `User:1.email` (singly or in a batch) leaves
`User:1.name` untouched in the Ada store. -/
theorem merge_only_frame_witness :
    lookupField (write adaStore userOne "email" (.scalar "a@b")) userOne "name"
        = lookupField adaStore userOne "name" ∧
      lookupField (batchWrite adaStore [(userOne, "email", .scalar "a@b")])
          userOne "name"
        = lookupField adaStore userOne "name" :=
  merge_only_frame adaStore [(userOne, "email", .scalar "a@b")] userOne userOne
    "email" "name" (.scalar "a@b") (by decide) (by decide)

theorem sid_not_mem_notifyOrder (subs : List SubEntry)
    (touched : List EntityIdentity) (i : Nat)
    (h : i ∉ subs.map SubEntry.sid) : i ∉ notifyOrder subs touched := by
  intro hmem
  rw [notifyOrder] at hmem
  obtain ⟨t, ht, hts⟩ := List.mem_map.mp hmem
  exact h (hts ▸ List.mem_map_of_mem SubEntry.sid (List.mem_of_mem_filter ht))

theorem count_notifyOrder (subs : List SubEntry)
    (touched : List EntityIdentity) (s : SubEntry)
    (hnd : (subs.map SubEntry.sid).Nodup) (hs : s ∈ subs) :
    (notifyOrder subs touched).count s.sid =
      if intersects s.encountered touched then 1 else 0 := by
  induction subs with
  | nil => cases hs
  | cons t rest ih =>
    rw [List.map_cons, List.nodup_cons] at hnd
    obtain ⟨hni, hnd'⟩ := hnd
    rcases List.mem_cons.mp hs with heq | hs'
    · subst heq
      have hzero : List.count s.sid (notifyOrder rest touched) = 0 :=
        List.count_eq_zero.mpr (sid_not_mem_notifyOrder rest touched s.sid hni)
      rw [notifyOrder] at hzero
      by_cases hint : intersects s.encountered touched = true
      · simp [notifyOrder, List.filter_cons, hint, List.count_cons, hzero]
      · simp only [Bool.not_eq_true] at hint
        simp [notifyOrder, List.filter_cons, hint, hzero]
    · have hts : s.sid ≠ t.sid := by
        intro h
        exact hni (h ▸ List.mem_map_of_mem SubEntry.sid hs')
      have hrec := ih hnd' hs'
      by_cases hint : intersects t.encountered touched = true
      · simpa [notifyOrder, List.filter_cons, hint, List.count_cons_of_ne hts]
          using hrec
      · simp only [Bool.not_eq_true] at hint
        simpa [notifyOrder, List.filter_cons, hint] using hrec

/-- C5: on a Record Store batch write, an active subscription whose
encountered-record set intersects the batch's touched-identity set is
notified exactly once (even when several touched identities match), after
the whole batch has landed; a subscription whose encountered set is
disjoint from the touched set is not notified at all. -/
theorem batch_notification_exactly_once (store : Store) (subs : List SubEntry)
    (b : Batch) (s : SubEntry)
    (hnd : (subs.map SubEntry.sid).Nodup) (hs : s ∈ subs) :
    ((processBatch store subs b).2).count s.sid =
      if intersects s.encountered (touchedOf b) then 1 else 0 :=
  count_notifyOrder subs (touchedOf b) s hnd hs

/-- Witness for C5: a batch touching both `User:1.email` and `User:1.name`
notifies the subscription encountering `{User:1}` exactly once. -/
theorem batch_notification_exactly_once_witness :
    ((processBatch [] [⟨1, [userOne], []⟩, ⟨2, [⟨"User", "2"⟩], []⟩]
        [(userOne, "email", .scalar "a@b"), (userOne, "name", .scalar "Ada")]).2).count 1 =
      if intersects [userOne]
          (touchedOf [(userOne, "email", .scalar "a@b"),
            (userOne, "name", .scalar "Ada")]) then 1 else 0 :=
  batch_notification_exactly_once []
    [⟨1, [userOne], []⟩, ⟨2, [⟨"User", "2"⟩], []⟩]
    [(userOne, "email", .scalar "a@b"), (userOne, "name", .scalar "Ada")]
    ⟨1, [userOne], []⟩ (by decide) (by decide)

theorem lookupPending_append_of_none (l₁ l₂ : List (String × List Nat))
    (fp : String) (h : lookupPending l₁ fp = none) :
    lookupPending (l₁ ++ l₂) fp = lookupPending l₂ fp := by
  induction l₁ with
  | nil => simp [lookupPending]
  | cons hd tl ih =>
    obtain ⟨fp', ws⟩ := hd
    by_cases hfp : fp' = fp
    · simp [lookupPending, hfp] at h
    · simp only [lookupPending, hfp, if_false, List.cons_append] at h ⊢
      exact ih h

theorem addWaiter_append_of_none (l : List (String × List Nat)) (fp : String)
    (ws : List Nat) (c : Nat) (h : lookupPending l fp = none) :
    addWaiter (l ++ [(fp, ws)]) fp c = l ++ [(fp, ws ++ [c])] := by
  induction l with
  | nil => simp [addWaiter]
  | cons hd tl ih =>
    obtain ⟨fp', ws'⟩ := hd
    by_cases hfp : fp' = fp
    · simp [lookupPending, hfp] at h
    · simp only [lookupPending, hfp, if_false] at h
      simp [addWaiter, hfp, ih h]

/-- C7: fetch deduplication — two fetches with equal fingerprints issued
before either resolves cause exactly one underlying transport call, and
when the operation settles both callers observe the same outcome. -/
theorem fetch_dedup (st : NetState) (c₁ c₂ : Nat) (fp : String) (o : Outcome)
    (h : lookupPending st.pendingFetches fp = none) :
    (fetch c₂ fp (fetch c₁ fp st)).transportCalls = st.transportCalls ++ [fp] ∧
      (resolveFetch fp o (fetch c₂ fp (fetch c₁ fp st))).1 = [(c₁, o), (c₂, o)] := by
  have h₁ : fetch c₁ fp st =
      { st with
          pendingFetches := st.pendingFetches ++ [(fp, [c₁])]
          transportCalls := st.transportCalls ++ [fp] } := by
    rw [fetch, h]
  have hlook : lookupPending (st.pendingFetches ++ [(fp, [c₁])]) fp = some [c₁] := by
    rw [lookupPending_append_of_none _ _ _ h]
    simp [lookupPending]
  have h₂ : fetch c₂ fp (fetch c₁ fp st) =
      { st with
          pendingFetches := st.pendingFetches ++ [(fp, [c₁, c₂])]
          transportCalls := st.transportCalls ++ [fp] } := by
    rw [h₁, fetch]
    simp only [hlook]
    simp [addWaiter_append_of_none _ _ _ _ h]
  constructor
  · rw [h₂]
  · rw [h₂, resolveFetch]
    have : lookupPending (st.pendingFetches ++ [(fp, [c₁, c₂])]) fp = some [c₁, c₂] := by
      rw [lookupPending_append_of_none _ _ _ h]
      simp [lookupPending]
    simp [this]

/-- Witness for C7: concurrent fetches for fingerprint "query X(id:1)" on
the empty cache make one transport call and both callers get the payload. -/
theorem fetch_dedup_witness :
    (fetch 1 "query X(id:1)" (fetch 0 "query X(id:1)" emptyNet)).transportCalls =
        emptyNet.transportCalls ++ ["query X(id:1)"] ∧
      (resolveFetch "query X(id:1)" (.success [])
          (fetch 1 "query X(id:1)" (fetch 0 "query X(id:1)" emptyNet))).1 =
        [(0, .success []), (1, .success [])] :=
  fetch_dedup emptyNet 0 1 "query X(id:1)" (.success []) rfl

/-- Witness for C3 at the Ada scenario: the hypotheses hold concretely and
the conclusion follows by `normalize_idempotent`. -/
theorem normalize_idempotent_witness :
    ([queryRoot, userOne] : List EntityIdentity) = [queryRoot, userOne] ∧
      StoreEquiv adaStore adaStore :=
  normalize_idempotent [] userNamePlanN adaPayload [] queryRoot adaStore
    adaStore [queryRoot, userOne] [queryRoot, userOne]
    (by
      simp +decide [normalize, normalizeList, normalizeNode, keyForN,
        resolveArgs, serializeKey, lookupPayloadField, payloadFieldValue,
        deriveIdentity, batchWrite, write, setField, touchedOf, dedupIds,
        userNamePlanN, adaPayload, adaStore, userOne, queryRoot, bind,
        Except.bind])
    (by
      simp +decide [normalize, normalizeList, normalizeNode, keyForN,
        resolveArgs, serializeKey, lookupPayloadField, payloadFieldValue,
        deriveIdentity, batchWrite, write, setField, touchedOf, dedupIds,
        lookupRecordField, userNamePlanN, adaPayload, adaStore, userOne,
        queryRoot, bind, Except.bind])

theorem isActive_unsubscribe_self (st : SubState) (i : Nat) :
    isActive (unsubscribe i st) i = false := by
  induction st with
  | nil => rfl
  | cons s rest ih =>
    simp only [unsubscribe, isActive] at ih ⊢
    rw [List.filter_cons]
    by_cases h : s.sid = i
    · simp only [h, bne_self_eq_false, Bool.false_eq_true, if_false]
      exact ih
    · have hb : (s.sid != i) = true := by simp [h]
      simp only [hb, if_true, List.any_cons, Bool.or_eq_false_iff]
      exact ⟨by simp [h], ih⟩

theorem isActive_false_unsubscribe (st : SubState) (i j : Nat)
    (h : isActive st i = false) : isActive (unsubscribe j st) i = false := by
  induction st with
  | nil => rfl
  | cons s rest ih =>
    simp only [isActive, List.any_cons, Bool.or_eq_false_iff] at h
    obtain ⟨hs, hrest⟩ := h
    simp only [unsubscribe, isActive] at ih ⊢
    rw [List.filter_cons]
    by_cases hj : (s.sid != j) = true
    · simp only [hj, if_true, List.any_cons, Bool.or_eq_false_iff]
      exact ⟨hs, ih hrest⟩
    · simp only [hj, Bool.false_eq_true, if_false]
      exact ih hrest

theorem isActive_false_applyEffects (effs : List Nat) (st : SubState) (i : Nat)
    (h : isActive st i = false) : isActive (applyEffects effs st) i = false := by
  induction effs generalizing st with
  | nil => exact h
  | cons e effs' ih =>
    simp only [applyEffects, List.foldl_cons] at ih ⊢
    exact ih (unsubscribe e st) (isActive_false_unsubscribe st i e h)

theorem isActive_applyEffects_mem (effs : List Nat) (st : SubState) (i : Nat)
    (h : i ∈ effs) : isActive (applyEffects effs st) i = false := by
  induction effs generalizing st with
  | nil => cases h
  | cons e effs' ih =>
    simp only [applyEffects, List.foldl_cons] at ih ⊢
    rcases List.mem_cons.mp h with heq | hmem
    · subst heq
      exact isActive_false_applyEffects effs' (unsubscribe i st) i
        (isActive_unsubscribe_self st i)
    · exact ih (unsubscribe e st) hmem

theorem not_invoked_of_inactive (snap : List SubEntry) (st : SubState) (i : Nat)
    (h : isActive st i = false) : i ∉ (runCallbacks snap st).1 := by
  induction snap generalizing st with
  | nil => simp [runCallbacks]
  | cons t rest ih =>
    by_cases ha : isActive st t.sid = true
    · have hti : i ≠ t.sid := by
        intro heq
        rw [heq] at h
        rw [h] at ha
        cases ha
      simp only [runCallbacks, ha, if_true, List.mem_cons]
      rintro (heq | hmem)
      · exact hti heq
      · exact ih (applyEffects t.effects st)
          (isActive_false_applyEffects t.effects st i h) hmem
    · simp only [Bool.not_eq_true] at ha
      simp only [runCallbacks, ha, Bool.false_eq_true, if_false]
      exact ih st h

/-- C8: after `unsubscribe`, the subscription's callback is never invoked
again — including callbacks already scheduled but not yet run within the
same batch-notification pass (delivery re-checks the live active set) —
and a second `unsubscribe` is a no-op. -/
theorem unsubscribe_idempotent_and_final (st : SubState) (i : Nat) :
    unsubscribe i (unsubscribe i st) = unsubscribe i st ∧
      (∀ snap : List SubEntry, i ∉ (runCallbacks snap (unsubscribe i st)).1) ∧
      (∀ (s : SubEntry) (rest : List SubEntry), isActive st s.sid = true →
        i ∈ s.effects → i ∉ ((runCallbacks (s :: rest) st).1.tail)) := by
  refine ⟨?_, ?_, ?_⟩
  · simp only [unsubscribe, List.filter_filter]
    simp [Bool.and_self]
  · intro snap
    exact not_invoked_of_inactive snap (unsubscribe i st) i
      (isActive_unsubscribe_self st i)
  · intro s rest ha heff
    simp only [runCallbacks, ha, if_true, List.tail_cons]
    exact not_invoked_of_inactive rest (applyEffects s.effects st) i
      (isActive_applyEffects_mem s.effects st i heff)

/-- Witness for C8: subscription 5's callback unsubscribes 7 mid-pass, so
7 — though in the snapshot — is not invoked after 5 runs. -/
theorem unsubscribe_idempotent_and_final_witness :
    (7 : Nat) ∉ ((runCallbacks [⟨5, [], [7]⟩, ⟨7, [], []⟩]
        [⟨5, [], [7]⟩, ⟨7, [], []⟩]).1.tail) :=
  (unsubscribe_idempotent_and_final [⟨5, [], [7]⟩, ⟨7, [], []⟩] 7).2.2
    ⟨5, [], [7]⟩ [⟨7, [], []⟩] (by decide) (by decide)

end Isograph

namespace Isograph.PetStatsRefetch

theorem lookupVar_append (l₁ l₂ : Variables) (k : String) :
    lookupVar (l₁ ++ l₂) k =
      match lookupVar l₁ k with
      | some v => some v
      | none => lookupVar l₂ k := by
  induction l₁ with
  | nil => simp [lookupVar]
  | cons p rest ih =>
    obtain ⟨k₀, v₀⟩ := p
    by_cases hk : k₀ = k <;> simp [lookupVar, hk, ih]

theorem lookupVar_mapOverride (a b : Variables) (k : String) :
    lookupVar (a.map (fun p =>
        match lookupVar b p.1 with
        | some v => (p.1, v)
        | none => p)) k =
      match lookupVar a k with
      | none => none
      | some v =>
        match lookupVar b k with
        | some w => some w
        | none => some v := by
  induction a with
  | nil => simp [lookupVar]
  | cons p rest ih =>
    obtain ⟨k₀, v₀⟩ := p
    by_cases hk : k₀ = k
    · subst hk
      cases hb : lookupVar b k₀ <;> simp [lookupVar, hb]
    · cases hb : lookupVar b k₀ <;> simp [lookupVar, hb, hk, ih]

theorem lookupVar_filterAbsent (a b : Variables) (k : String)
    (h : lookupVar a k = none) :
    lookupVar (b.filter (fun q => (lookupVar a q.1).isNone)) k =
      lookupVar b k := by
  induction b with
  | nil => rfl
  | cons q rest ih =>
    obtain ⟨k₁, w⟩ := q
    by_cases hk : k₁ = k
    · subst hk
      simp [List.filter_cons, h, lookupVar]
    · cases hc : (lookupVar a k₁).isNone <;>
        simp [List.filter_cons, hc, lookupVar, hk, ih]

theorem lookupVar_spread (a b : Variables) (k : String) :
    lookupVar (spread a b) k =
      match lookupVar b k with
      | some v => some v
      | none => lookupVar a k := by
  rw [spread, lookupVar_append, lookupVar_mapOverride]
  cases ha : lookupVar a k with
  | none =>
    cases hb : lookupVar b k with
    | none => simp [lookupVar_filterAbsent a b k ha, hb]
    | some w => simp [lookupVar_filterAbsent a b k ha, hb]
  | some v =>
    cases hb : lookupVar b k <;> simp [hb]

/-- C10: applying the refetch_pet_stats mutation resolver performs no
network request — requests arise only from invoking the returned thunk,
which issues exactly one `makeNetworkRequest`; the variables sent are the
object-spread merge of filteredVariables and mutationParams with
mutationParams taking precedence; and the readOutData argument is ignored
entirely, because `includeReadOutData` returns its variables argument
unchanged. -/
theorem refetch_pet_stats_resolver_behavior {γ : Type} (environment : String)
    (artifact : String) (readOutData : γ)
    (filteredVariables mutationParams : Variables) :
    (∀ vs : Variables, includeReadOutData vs readOutData = vs) ∧
      resolver environment artifact readOutData filteredVariables
          mutationParams =
        [makeNetworkRequest environment artifact
          (spread filteredVariables mutationParams)] ∧
      (∀ {δ : Type} (ro' : δ),
        resolver environment artifact readOutData filteredVariables =
          resolver environment artifact ro' filteredVariables) ∧
      (∀ k, lookupVar (spread filteredVariables mutationParams) k =
        match lookupVar mutationParams k with
        | some v => some v
        | none => lookupVar filteredVariables k) :=
  ⟨fun _ => rfl, rfl, fun _ => rfl,
    fun k => lookupVar_spread filteredVariables mutationParams k⟩

end Isograph.PetStatsRefetch
